import Mathlib

/-!
Verification development for the k-means visualizer in `src/main.c`
(repository sanchezhs/kmeans).

The C program computes with IEEE `float`.  We embed float values as exact
rationals extended with a NaN element (`F`).  This idealizes rounding (all
finite arithmetic is exact) but keeps the one non-finite behaviour the
program actually exercises: `0.0f / 0` in `update_step` produces NaN, NaN
propagates through `+`, `-`, `*`, `/`, and every ordered comparison
involving NaN is false.  The only division the program performs is by a
cluster population count, whose numerator is an accumulator that is zero
whenever the count is zero, so mapping division by zero to NaN is faithful
on every reachable input.  `sqrtf` (used in `assign_step` only as a
monotone wrapper around a squared distance that is then compared with `<`)
is dropped: `sqrtf` is strictly monotone on nonnegative reals and maps NaN
to NaN, so every comparison outcome is unchanged.
-/

/-- An idealized IEEE float: an exact rational, or NaN. -/
inductive F where
  | nan : F
  | val : ℚ → F
deriving DecidableEq

/-- Float addition: NaN-propagating exact rational addition. -/
def fadd : F → F → F
  | F.val a, F.val b => F.val (a + b)
  | _, _ => F.nan

/-- Float subtraction: NaN-propagating exact rational subtraction. -/
def fsub : F → F → F
  | F.val a, F.val b => F.val (a - b)
  | _, _ => F.nan

/-- Float multiplication: NaN-propagating exact rational multiplication. -/
def fmul : F → F → F
  | F.val a, F.val b => F.val (a * b)
  | _, _ => F.nan

/-- Float division.  Division by zero yields NaN; in the program the only
division by zero is `0.0f / 0` in `update_step`, which is IEEE NaN. -/
def fdiv : F → F → F
  | F.val a, F.val b => if b = 0 then F.nan else F.val (a / b)
  | _, _ => F.nan

/-- Float `<`: any comparison involving NaN is false. -/
def flt : F → F → Bool
  | F.val a, F.val b => decide (a < b)
  | _, _ => false

/-- Float `>`: any comparison involving NaN is false. -/
def fgt : F → F → Bool
  | F.val a, F.val b => decide (b < a)
  | _, _ => false

/-- True exactly on finite (non-NaN) values. -/
def isVal : F → Bool
  | F.nan => false
  | F.val _ => true

/-- The rational value of a finite `F`; 0 on NaN (only used under
`isVal` hypotheses). -/
def toRat : F → ℚ
  | F.nan => 0
  | F.val q => q

/-- An `int` promoted to `float`, as in C's usual arithmetic conversions. -/
def intToF (n : Int) : F := F.val (n : ℚ)

/-- raylib's `Vector2`: the position of a centroid. -/
structure Vector2 where
  x : F
  y : F
deriving DecidableEq

/-- `struct Sample`: a 2D point plus the index of the centroid it is
assigned to (`-1` = unassigned sentinel, set by `generate_samples`). -/
structure Sample where
  x : F
  y : F
  cluster : Int
deriving DecidableEq

/-- `struct Mean`: the per-centroid accumulator used by `update_step`. -/
structure Mean where
  mean_x : F
  mean_y : F
  total : Int
deriving DecidableEq

/-- Both coordinates of a centroid are finite. -/
def finiteV (c : Vector2) : Prop := isVal c.x = true ∧ isVal c.y = true

/-- Both coordinates of a sample are finite. -/
def finiteS (s : Sample) : Prop := isVal s.x = true ∧ isVal s.y = true

/-- Indexing with a default, to state theorems without dependent bounds
proofs.  `ptAt cs j` is `cs->items[j]` for `j < cs.length`. -/
def ptAt (cs : List Vector2) (j : Nat) : Vector2 := cs.getD j ⟨F.val 0, F.val 0⟩

/-- `ss->items[i]` with a default sample out of range. -/
def sampleAt (ss : List Sample) (i : Nat) : Sample := ss.getD i ⟨F.val 0, F.val 0, 0⟩

/-!  `generate_samples` (src/main.c:80-90).  The two `get_random_float`
draws per sample are passed in as an oracle `draws : Nat → F × F` giving
the i-th sample's x and y offsets; the C code adds them to `center` and
appends the sample with `cluster = -1`. -/

/-- `generate_samples`: appends `num_samples` samples around `center`,
each with `cluster = -1`. -/
def generate_samples (s : List Sample) (center : Vector2) (num_samples : Nat)
    (draws : Nat → F × F) : List Sample :=
  s ++ (List.range num_samples).map (fun i =>
    ⟨fadd center.x (draws i).1, fadd center.y (draws i).2, -1⟩)

/-!  `assign_step` (src/main.c:143-164).  The source computes
`sqrtf((sx-cx)^2 + (sy-cy)^2)` and compares with `<`; we compare the
squared distances (see the header comment).  `best_distance` starts at
`__FLT_MAX__`; we model the initial best as `none`, and the first
comparison `d < FLT_MAX` as `isVal d`: every finite distance arising from
in-range data is below `FLT_MAX`, and `NaN < FLT_MAX` is false. -/

/-- Squared Euclidean distance from a sample to a centroid, written with
the same subtractions and products as the source. -/
def sqDist (s : Sample) (c : Vector2) : F :=
  fadd (fmul (fsub s.x c.x) (fsub s.x c.x)) (fmul (fsub s.y c.y) (fsub s.y c.y))

/-- The `curr_distance < best_distance` test of `assign_step`;
`none` is the initial `__FLT_MAX__` best. -/
def beats (d : F) (best : Option F) : Bool :=
  match best with
  | none => isVal d
  | some b => flt d b

/-- The inner loop of `assign_step` over the remaining centroids:
`k` is the index of the next centroid, `best` the best distance so far,
`cl` the cluster currently recorded in the sample. -/
def assignLoop (s : Sample) : List Vector2 → Int → Option F → Int → Int
  | [], _, _, cl => cl
  | c :: rest, k, best, cl =>
    let d := sqDist s c
    if beats d best then assignLoop s rest (k + 1) (some d) k
    else assignLoop s rest (k + 1) best cl

/-- One sample's pass of `assign_step`: position unchanged, `cluster`
overwritten by each strict improvement. -/
def assignSample (cs : List Vector2) (s : Sample) : Sample :=
  ⟨s.x, s.y, assignLoop s cs 0 none s.cluster⟩

/-- `assign_step`: assigns each sample to the closest centroid. -/
def assign_step (cs : List Vector2) (ss : List Sample) : List Sample :=
  ss.map (assignSample cs)

/-!  `update_step` (src/main.c:169-201).  The accumulation loop writes
`mean_array[sample.cluster]` with no bounds check; an out-of-range
`cluster` is undefined behaviour in C.  The embedding leaves the
accumulator unchanged on such an access and records that it happened in a
Boolean flag (`updateOOB`), so that the in-bounds precondition can be
stated and the values of `update_step` are only claimed under it. -/

/-- The fresh zero-initialized `mean_array` of length `c->count`. -/
def meanInit (cs : List Vector2) : List Mean :=
  cs.map (fun _ => ⟨F.val 0, F.val 0, 0⟩)

/-- One step of the accumulation loop: add sample `s` into
`mean_array[s.cluster]`.  The second component flags an out-of-bounds
access (undefined behaviour in the source). -/
def bump (acc : List Mean × Bool) (s : Sample) : List Mean × Bool :=
  match acc.1.get? s.cluster.toNat with
  | some m =>
    if 0 ≤ s.cluster then
      (acc.1.set s.cluster.toNat ⟨fadd m.mean_x s.x, fadd m.mean_y s.y, m.total + 1⟩, acc.2)
    else (acc.1, true)
  | none => (acc.1, true)

/-- The populated `mean_array` after the accumulation loop. -/
def meanArray (cs : List Vector2) (ss : List Sample) : List Mean :=
  (ss.foldl bump (meanInit cs, false)).1

/-- Whether the accumulation loop of `update_step` performed an
out-of-bounds `mean_array` access (undefined behaviour). -/
def updateOOB (cs : List Vector2) (ss : List Sample) : Bool :=
  (ss.foldl bump (meanInit cs, false)).2

/-- `update_step` after a successful allocation: divide each accumulator
by its count (`int` promoted to `float`) and store the result in the
centroid. -/
def update_step (cs : List Vector2) (ss : List Sample) : List Vector2 :=
  (meanArray cs ss).map (fun m =>
    ⟨fdiv m.mean_x (intToF m.total), fdiv m.mean_y (intToF m.total)⟩)

/-- `update_step` including its `malloc` check (src/main.c:171-176):
`allocOk = false` models a failed allocation, on which the function
prints an error and returns with the centroids untouched.  The second
component records whether the error message was printed. -/
def update_step_checked (allocOk : Bool) (cs : List Vector2) (ss : List Sample) :
    List Vector2 × Bool :=
  if allocOk then (update_step cs ss, false) else (cs, true)

/-!  `converged` (src/main.c:206-220). -/

/-- The `EPSILON` constant of `converged` (`0.0001f`, idealized to the
exact rational it denotes in the source text). -/
def EPSILON : ℚ := 1 / 10000

/-- The per-centroid test of `converged`:
`dx*dx + dy*dy > EPSILON`, with float (NaN-propagating) arithmetic. -/
def exceeds (p c : Vector2) : Bool :=
  let dx := fsub p.x c.x
  let dy := fsub p.y c.y
  fgt (fadd (fmul dx dx) (fmul dy dy)) (F.val EPSILON)

/-- `converged`: false if the counts differ, false on the first centroid
whose squared displacement exceeds `EPSILON`, true otherwise. -/
def converged (previus centroids : List Vector2) : Bool :=
  if previus.length ≠ centroids.length then false
  else (List.zip previus centroids).all (fun pc => !(exceeds pc.1 pc.2))

/-- Rational squared displacement between two finite centroid positions
(the mathematical content of `exceeds`). -/
def dispQ (p c : Vector2) : ℚ :=
  (toRat p.x - toRat c.x) * (toRat p.x - toRat c.x) +
    (toRat p.y - toRat c.y) * (toRat p.y - toRat c.y)

/-- Rational squared distance from a finite sample to a finite centroid
(the mathematical content of `sqDist`). -/
def sqDistQ (s : Sample) (c : Vector2) : ℚ :=
  (toRat s.x - toRat c.x) * (toRat s.x - toRat c.x) +
    (toRat s.y - toRat c.y) * (toRat s.y - toRat c.y)

/-- The samples currently assigned to centroid `k`. -/
def membersOf (ss : List Sample) (k : Nat) : List Sample :=
  ss.filter (fun s => s.cluster == (k : Int))

/-- Sum of the x coordinates of a list of samples. -/
def sumX (ss : List Sample) : ℚ := (ss.map (fun s => toRat s.x)).sum

/-- Sum of the y coordinates of a list of samples. -/
def sumY (ss : List Sample) : ℚ := (ss.map (fun s => toRat s.y)).sum

/-!  `run_kmeans` (src/main.c:225-246).  The source allocates `previous`
and enters `while (!converged(&previous, centroids))` WITHOUT initializing
`previous.count` or the malloc'd `previous.items`: the first `converged`
test reads uninitialized memory.  The embedding passes that uninitialized
snapshot in as `junk`.  The loop body snapshots the current centroids,
runs `assign_step` then `update_step`, and the next test compares against
that snapshot.  The loop need not terminate, so it is given fuel and
returns `none` when the fuel runs out; on exit it returns the number of
body iterations executed, the final snapshot, and the final state. -/

/-- The `while (!converged(...))` loop of `run_kmeans`:
`kmeansLoop fuel prev cs ss = some (n, prev', cs', ss')` means the loop
exits after `n` body iterations with final snapshot `prev'`, centroids
`cs'` and samples `ss'`. -/
def kmeansLoop : Nat → List Vector2 → List Vector2 → List Sample →
    Option (Nat × List Vector2 × List Vector2 × List Sample)
  | 0, _, _, _ => none
  | fuel + 1, prev, cs, ss =>
    if converged prev cs then some (0, prev, cs, ss)
    else
      let ss1 := assign_step cs ss
      let cs1 := update_step cs ss1
      match kmeansLoop fuel cs cs1 ss1 with
      | none => none
      | some (n, p, c, s) => some (n + 1, p, c, s)

/-- The state touched by `run_kmeans`: the two collections and the
pacing accumulator `*time_between_updates`. -/
structure KState where
  centroids : List Vector2
  samples : List Sample
  timeBetweenUpdates : F
deriving DecidableEq

/-- `run_kmeans`: returns immediately when the accumulator is below
`1.0f`; otherwise runs the convergence loop (with the uninitialized
snapshot `junk`) and resets the accumulator to `0.0f`.  `none` means the
fuel was exhausted (the C loop is still running). -/
def run_kmeans (fuel : Nat) (junk : List Vector2) (st : KState) : Option KState :=
  if flt st.timeBetweenUpdates (F.val 1) then some st
  else
    match kmeansLoop fuel junk st.centroids st.samples with
    | none => none
    | some (_, _, cs, ss) => some ⟨cs, ss, F.val 0⟩

/-! ### Helper lemmas -/

lemma ptAt_cons_zero (c : Vector2) (cs : List Vector2) : ptAt (c :: cs) 0 = c := rfl

lemma ptAt_cons_succ (c : Vector2) (cs : List Vector2) (i : Nat) :
    ptAt (c :: cs) (i + 1) = ptAt cs i := rfl

lemma ptAt_mem {cs : List Vector2} {i : Nat} (h : i < cs.length) : ptAt cs i ∈ cs := by
  induction cs generalizing i with
  | nil => simp at h
  | cons c cs ih =>
    cases i with
    | zero => simp [ptAt_cons_zero]
    | succ i =>
      rw [ptAt_cons_succ]
      exact List.mem_cons_of_mem _ (ih (by simpa using h))

lemma isVal_exists {a : F} (h : isVal a = true) : ∃ q : ℚ, a = F.val q := by
  cases a with
  | nan => simp [isVal] at h
  | val q => exact ⟨q, rfl⟩

lemma flt_val (a b : ℚ) : flt (F.val a) (F.val b) = decide (a < b) := rfl

lemma fgt_val (a b : ℚ) : fgt (F.val a) (F.val b) = decide (b < a) := rfl

lemma sqDist_finite {s : Sample} {c : Vector2} (hs : finiteS s) (hc : finiteV c) :
    sqDist s c = F.val (sqDistQ s c) := by
  obtain ⟨hsx, hsy⟩ := hs
  obtain ⟨hcx, hcy⟩ := hc
  obtain ⟨a, ha⟩ := isVal_exists hsx
  obtain ⟨b, hb⟩ := isVal_exists hsy
  obtain ⟨u, hu⟩ := isVal_exists hcx
  obtain ⟨v, hv⟩ := isVal_exists hcy
  simp [sqDist, sqDistQ, ha, hb, hu, hv, fsub, fmul, fadd, toRat]

lemma exceeds_finite {p c : Vector2} (hp : finiteV p) (hc : finiteV c) :
    exceeds p c = decide (EPSILON < dispQ p c) := by
  obtain ⟨hpx, hpy⟩ := hp
  obtain ⟨hcx, hcy⟩ := hc
  obtain ⟨a, ha⟩ := isVal_exists hpx
  obtain ⟨b, hb⟩ := isVal_exists hpy
  obtain ⟨u, hu⟩ := isVal_exists hcx
  obtain ⟨v, hv⟩ := isVal_exists hcy
  simp [exceeds, dispQ, ha, hb, hu, hv, fsub, fmul, fadd, fgt, toRat]

lemma bump_length (acc : List Mean × Bool) (s : Sample) :
    (bump acc s).1.length = acc.1.length := by
  unfold bump
  cases h : acc.1.get? s.cluster.toNat with
  | none => simp [h]
  | some m =>
    by_cases h0 : 0 ≤ s.cluster <;> simp [h, h0]

lemma foldl_bump_length (ss : List Sample) (ms : List Mean) (b : Bool) :
    ((ss.foldl bump (ms, b)).1).length = ms.length := by
  induction ss generalizing ms b with
  | nil => rfl
  | cons s ss ih =>
    have h1 := bump_length (ms, b) s
    calc ((List.foldl bump (bump (ms, b) s) ss).1).length
        = (bump (ms, b) s).1.length := by
          have := ih (bump (ms, b) s).1 (bump (ms, b) s).2
          simpa using this
      _ = ms.length := h1

lemma bump_get?_other {ms : List Mean} {b : Bool} {s : Sample} {k : Nat}
    (h : s.cluster ≠ (k : Int)) : (bump (ms, b) s).1[k]? = ms[k]? := by
  unfold bump
  cases hg : (ms, b).1.get? s.cluster.toNat with
  | none => simp [hg]
  | some m =>
    by_cases h0 : 0 ≤ s.cluster
    · have hne : s.cluster.toNat ≠ k := by
        intro hEq
        exact h (by omega)
      simp [hg, h0, List.getElem?_set_ne hne]
    · simp [hg, h0]

lemma foldl_bump_untouched (k : Nat) :
    ∀ (ss : List Sample) (ms : List Mean) (b : Bool),
      (∀ s ∈ ss, s.cluster ≠ (k : Int)) →
      ((ss.foldl bump (ms, b)).1)[k]? = ms[k]? := by
  intro ss
  induction ss with
  | nil => intro ms b _; rfl
  | cons s ss ih =>
    intro ms b hs
    have hstep : (bump (ms, b) s).1[k]? = ms[k]? :=
      bump_get?_other (hs s (List.mem_cons_self s ss))
    have hrest := ih (bump (ms, b) s).1 (bump (ms, b) s).2
      (fun s' hs' => hs s' (List.mem_cons_of_mem s hs'))
    calc ((List.foldl bump (bump (ms, b) s) ss).1)[k]?
        = (bump (ms, b) s).1[k]? := by simpa using hrest
      _ = ms[k]? := hstep

lemma membersOf_cons_eq {s : Sample} {ss : List Sample} {k : Nat}
    (h : s.cluster = (k : Int)) : membersOf (s :: ss) k = s :: membersOf ss k := by
  simp [membersOf, List.filter_cons, h]

lemma membersOf_cons_ne {s : Sample} {ss : List Sample} {k : Nat}
    (h : s.cluster ≠ (k : Int)) : membersOf (s :: ss) k = membersOf ss k := by
  simp [membersOf, List.filter_cons, h]

lemma foldl_bump_acc (k : Nat) :
    ∀ (ss : List Sample) (ms : List Mean) (b : Bool) (a c : ℚ) (t : Int),
      k < ms.length →
      ms[k]? = some ⟨F.val a, F.val c, t⟩ →
      (∀ s ∈ ss, s.cluster = (k : Int) → isVal s.x = true ∧ isVal s.y = true) →
      ((ss.foldl bump (ms, b)).1)[k]? =
        some ⟨F.val (a + sumX (membersOf ss k)), F.val (c + sumY (membersOf ss k)),
              t + ((membersOf ss k).length : Int)⟩ := by
  intro ss
  induction ss with
  | nil =>
    intro ms b a c t _ hm _
    simp [membersOf, sumX, sumY, hm]
  | cons s ss ih =>
    intro ms b a c t hk hm hfin
    by_cases hsk : s.cluster = (k : Int)
    · obtain ⟨hx, hy⟩ := hfin s (List.mem_cons_self s ss) hsk
      obtain ⟨sx, hsx⟩ := isVal_exists hx
      obtain ⟨sy, hsy⟩ := isVal_exists hy
      have htn : s.cluster.toNat = k := by omega
      have hget : (ms, b).1.get? s.cluster.toNat = some ⟨F.val a, F.val c, t⟩ := by
        simp [List.get?_eq_getElem?, htn, hm]
      have hbump : bump (ms, b) s =
          (ms.set k ⟨F.val (a + sx), F.val (c + sy), t + 1⟩, b) := by
        unfold bump
        rw [hget]
        simp [htn, hsx, hsy, fadd, show (0 : Int) ≤ s.cluster by omega]
      have hk2 : k < (ms.set k (⟨F.val (a + sx), F.val (c + sy), t + 1⟩ : Mean)).length := by
        simpa using hk
      have hm2 : (ms.set k (⟨F.val (a + sx), F.val (c + sy), t + 1⟩ : Mean))[k]? =
          some ⟨F.val (a + sx), F.val (c + sy), t + 1⟩ :=
        List.getElem?_set_self hk
      have hrec := ih (ms.set k ⟨F.val (a + sx), F.val (c + sy), t + 1⟩) b
        (a + sx) (c + sy) (t + 1) hk2 hm2
        (fun s' hs' hc => hfin s' (List.mem_cons_of_mem s hs') hc)
      rw [List.foldl_cons, hbump, hrec, membersOf_cons_eq hsk]
      simp [sumX, sumY, hsx, hsy, toRat]
      refine ⟨by ring, by ring, by omega⟩
    · have hstep := @bump_get?_other ms b s k hsk
      have hk2 : k < (bump (ms, b) s).1.length := by rw [bump_length]; exact hk
      have hm2 : (bump (ms, b) s).1[k]? = some ⟨F.val a, F.val c, t⟩ := by
        rw [hstep]; exact hm
      have hrec := ih (bump (ms, b) s).1 (bump (ms, b) s).2 a c t hk2 hm2
        (fun s' hs' hc => hfin s' (List.mem_cons_of_mem s hs') hc)
      rw [List.foldl_cons, membersOf_cons_ne hsk]
      simpa using hrec

lemma meanInit_get {cs : List Vector2} {k : Nat} (hk : k < cs.length) :
    (meanInit cs)[k]? = some ⟨F.val 0, F.val 0, 0⟩ := by
  simp [meanInit, List.getElem?_map, List.getElem?_eq_getElem hk, List.getElem?_replicate, hk]

lemma meanArray_length (cs : List Vector2) (ss : List Sample) :
    (meanArray cs ss).length = cs.length := by
  unfold meanArray
  rw [foldl_bump_length]
  simp [meanInit]

lemma update_step_length (cs : List Vector2) (ss : List Sample) :
    (update_step cs ss).length = cs.length := by
  simp [update_step, meanArray_length]

lemma assign_step_length (cs : List Vector2) (ss : List Sample) :
    (assign_step cs ss).length = ss.length := by
  simp [assign_step]

lemma meanArray_get_members {cs : List Vector2} {ss : List Sample} {k : Nat}
    (hk : k < cs.length)
    (hfin : ∀ s ∈ ss, s.cluster = (k : Int) → isVal s.x = true ∧ isVal s.y = true) :
    (meanArray cs ss)[k]? =
      some ⟨F.val (sumX (membersOf ss k)), F.val (sumY (membersOf ss k)),
            ((membersOf ss k).length : Int)⟩ := by
  unfold meanArray
  have hk' : k < (meanInit cs).length := by simpa [meanInit] using hk
  have h := foldl_bump_acc k ss (meanInit cs) false 0 0 0 hk' (meanInit_get hk) hfin
  simpa using h

lemma meanArray_get_empty {cs : List Vector2} {ss : List Sample} {k : Nat}
    (hk : k < cs.length) (hnone : ∀ s ∈ ss, s.cluster ≠ (k : Int)) :
    (meanArray cs ss)[k]? = some ⟨F.val 0, F.val 0, 0⟩ := by
  unfold meanArray
  rw [foldl_bump_untouched k ss (meanInit cs) false hnone]
  exact meanInit_get hk

lemma update_step_get (cs : List Vector2) (ss : List Sample) (k : Nat) :
    (update_step cs ss)[k]? = ((meanArray cs ss)[k]?).map
      (fun m => (⟨fdiv m.mean_x (intToF m.total), fdiv m.mean_y (intToF m.total)⟩ : Vector2)) := by
  simp [update_step, List.getElem?_map]

lemma bump_flag (ms : List Mean) (b : Bool) (s : Sample) :
    (bump (ms, b) s).2 =
      (b || !(decide (0 ≤ s.cluster ∧ s.cluster < (ms.length : Int)))) := by
  unfold bump
  cases hg : (ms, b).1.get? s.cluster.toNat with
  | none =>
    have hlen : ms.length ≤ s.cluster.toNat := by
      simpa [List.get?_eq_getElem?] using hg
    have hP : ¬(0 ≤ s.cluster ∧ s.cluster < (ms.length : Int)) := by omega
    simp [hg, hP]
  | some m =>
    have hlt : s.cluster.toNat < ms.length := by
      have := List.get?_eq_some.mp hg
      exact this.1
    by_cases h0 : 0 ≤ s.cluster
    · have hP : 0 ≤ s.cluster ∧ s.cluster < (ms.length : Int) := by omega
      simp [hg, h0, hP]
    · have hP : ¬(0 ≤ s.cluster ∧ s.cluster < (ms.length : Int)) := by omega
      simp [hg, h0, hP]

lemma foldl_bump_flag :
    ∀ (ss : List Sample) (ms : List Mean) (b : Bool),
      (ss.foldl bump (ms, b)).2 =
        (b || ss.any (fun s => !(decide (0 ≤ s.cluster ∧ s.cluster < (ms.length : Int))))) := by
  intro ss
  induction ss with
  | nil => intro ms b; simp
  | cons s ss ih =>
    intro ms b
    have hlen : (bump (ms, b) s).1.length = ms.length := bump_length _ _
    have hrest := ih (bump (ms, b) s).1 (bump (ms, b) s).2
    rw [List.foldl_cons]
    calc (List.foldl bump (bump (ms, b) s) ss).2
        = ((bump (ms, b) s).2 ||
            ss.any (fun s' => !(decide (0 ≤ s'.cluster ∧
              s'.cluster < ((bump (ms, b) s).1.length : Int))))) := by simpa using hrest
      _ = (b || (s :: ss).any (fun s' => !(decide (0 ≤ s'.cluster ∧
              s'.cluster < (ms.length : Int))))) := by
          rw [hlen, bump_flag]
          simp [List.any_cons, Bool.or_assoc]

lemma updateOOB_eq_false_iff (cs : List Vector2) (ss : List Sample) :
    updateOOB cs ss = false ↔
      ∀ s ∈ ss, 0 ≤ s.cluster ∧ s.cluster < (cs.length : Int) := by
  unfold updateOOB
  rw [foldl_bump_flag]
  simp [meanInit]

lemma assignLoop_bounds (s : Sample) :
    ∀ (rest : List Vector2) (k : Int) (best : Option F) (cl : Int),
      assignLoop s rest k best cl = cl ∨
        ∃ j : Nat, j < rest.length ∧ assignLoop s rest k best cl = k + (j : Int) := by
  intro rest
  induction rest with
  | nil => intro k best cl; left; rfl
  | cons c rest ih =>
    intro k best cl
    cases hb : beats (sqDist s c) best with
    | true =>
      have hstep : assignLoop s (c :: rest) k best cl =
          assignLoop s rest (k + 1) (some (sqDist s c)) k := by
        simp [assignLoop, hb]
      rcases ih (k + 1) (some (sqDist s c)) k with h | ⟨j, hj, h⟩
      · right; exact ⟨0, by simp, by rw [hstep, h]; simp⟩
      · right
        refine ⟨j + 1, by simp; omega, ?_⟩
        rw [hstep, h]; push_cast; ring
    | false =>
      have hstep : assignLoop s (c :: rest) k best cl =
          assignLoop s rest (k + 1) best cl := by
        simp [assignLoop, hb]
      rcases ih (k + 1) best cl with h | ⟨j, hj, h⟩
      · left; rw [hstep, h]
      · right
        refine ⟨j + 1, by simp; omega, ?_⟩
        rw [hstep, h]; push_cast; ring

lemma assignLoop_none_assigns (s : Sample) :
    ∀ (rest : List Vector2) (k : Int) (cl : Int),
      (∃ c ∈ rest, isVal (sqDist s c) = true) →
      ∃ j : Nat, j < rest.length ∧ assignLoop s rest k none cl = k + (j : Int) := by
  intro rest
  induction rest with
  | nil => intro k cl h; simp at h
  | cons c rest ih =>
    intro k cl h
    cases hb : beats (sqDist s c) none with
    | true =>
      have hstep : assignLoop s (c :: rest) k none cl =
          assignLoop s rest (k + 1) (some (sqDist s c)) k := by
        simp [assignLoop, hb]
      rcases assignLoop_bounds s rest (k + 1) (some (sqDist s c)) k with h1 | ⟨j, hj, h1⟩
      · exact ⟨0, by simp, by rw [hstep, h1]; simp⟩
      · refine ⟨j + 1, by simp; omega, ?_⟩
        rw [hstep, h1]; push_cast; ring
    | false =>
      have hc : isVal (sqDist s c) = false := by simpa [beats] using hb
      have hstep : assignLoop s (c :: rest) k none cl =
          assignLoop s rest (k + 1) none cl := by
        simp [assignLoop, hb]
      obtain ⟨c', hc', hval⟩ := h
      rcases List.mem_cons.mp hc' with rfl | hmem
      · rw [hval] at hc; cases hc
      · obtain ⟨j, hj, h1⟩ := ih (k + 1) cl ⟨c', hmem, hval⟩
        refine ⟨j + 1, by simp; omega, ?_⟩
        rw [hstep, h1]; push_cast; ring

lemma assignLoop_min_spec (s : Sample) (hfs : finiteS s) :
    ∀ (rest : List Vector2), (∀ c ∈ rest, finiteV c) →
      ∀ (k : Int) (b : ℚ) (cl : Int),
      (assignLoop s rest k (some (F.val b)) cl = cl ∧ ∀ c ∈ rest, b ≤ sqDistQ s c) ∨
      (∃ j : Nat, j < rest.length ∧
         assignLoop s rest k (some (F.val b)) cl = k + (j : Int) ∧
         sqDistQ s (ptAt rest j) < b ∧
         (∀ i : Nat, i < rest.length → sqDistQ s (ptAt rest j) ≤ sqDistQ s (ptAt rest i)) ∧
         (∀ i : Nat, i < j → sqDistQ s (ptAt rest j) < sqDistQ s (ptAt rest i))) := by
  intro rest
  induction rest with
  | nil => intro _ k b cl; left; exact ⟨rfl, by simp⟩
  | cons c rest ih =>
    intro hfc k b cl
    have hcfin : finiteV c := hfc c (List.mem_cons_self c rest)
    have hrfin : ∀ c' ∈ rest, finiteV c' := fun c' h => hfc c' (List.mem_cons_of_mem c h)
    have hd : sqDist s c = F.val (sqDistQ s c) := sqDist_finite hfs hcfin
    by_cases hlt : sqDistQ s c < b
    · have hb : beats (F.val (sqDistQ s c)) (some (F.val b)) = true := by
        simp [beats, flt, hlt]
      have hstep : assignLoop s (c :: rest) k (some (F.val b)) cl =
          assignLoop s rest (k + 1) (some (F.val (sqDistQ s c))) k := by
        simp [assignLoop, hd, hb]
      rcases ih hrfin (k + 1) (sqDistQ s c) k with ⟨heq, hall⟩ | ⟨j, hj, heq, hjb, hmin, hfirst⟩
      · right
        refine ⟨0, by simp, by rw [hstep, heq]; simp, by simpa [ptAt_cons_zero] using hlt,
          ?_, ?_⟩
        · intro i hi
          cases i with
          | zero => simp
          | succ i =>
            rw [ptAt_cons_zero, ptAt_cons_succ]
            exact hall _ (ptAt_mem (by simpa using hi))
        · intro i hi
          exact absurd hi (Nat.not_lt_zero i)
      · right
        refine ⟨j + 1, by simp; omega, by rw [hstep, heq]; push_cast; ring, ?_, ?_, ?_⟩
        · rw [ptAt_cons_succ]
          exact lt_trans hjb hlt
        · intro i hi
          cases i with
          | zero =>
            rw [ptAt_cons_succ, ptAt_cons_zero]
            exact le_of_lt hjb
          | succ i =>
            rw [ptAt_cons_succ, ptAt_cons_succ]
            exact hmin i (by simpa using hi)
        · intro i hi
          cases i with
          | zero =>
            rw [ptAt_cons_succ, ptAt_cons_zero]
            exact hjb
          | succ i =>
            rw [ptAt_cons_succ, ptAt_cons_succ]
            exact hfirst i (by omega)
    · have hb : beats (F.val (sqDistQ s c)) (some (F.val b)) = false := by
        simp [beats, flt, hlt]
      have hstep : assignLoop s (c :: rest) k (some (F.val b)) cl =
          assignLoop s rest (k + 1) (some (F.val b)) cl := by
        simp [assignLoop, hd, hb]
      rcases ih hrfin (k + 1) b cl with ⟨heq, hall⟩ | ⟨j, hj, heq, hjb, hmin, hfirst⟩
      · left
        refine ⟨by rw [hstep, heq], ?_⟩
        intro c' hc'
        rcases List.mem_cons.mp hc' with rfl | hmem
        · exact le_of_not_lt hlt
        · exact hall c' hmem
      · right
        refine ⟨j + 1, by simp; omega, by rw [hstep, heq]; push_cast; ring, ?_, ?_, ?_⟩
        · rw [ptAt_cons_succ]
          exact hjb
        · intro i hi
          cases i with
          | zero =>
            rw [ptAt_cons_succ, ptAt_cons_zero]
            exact le_of_lt (lt_of_lt_of_le hjb (le_of_not_lt hlt))
          | succ i =>
            rw [ptAt_cons_succ, ptAt_cons_succ]
            exact hmin i (by simpa using hi)
        · intro i hi
          cases i with
          | zero =>
            rw [ptAt_cons_succ, ptAt_cons_zero]
            exact lt_of_lt_of_le hjb (le_of_not_lt hlt)
          | succ i =>
            rw [ptAt_cons_succ, ptAt_cons_succ]
            exact hfirst i (by omega)

lemma sampleAt_assign {cs : List Vector2} {ss : List Sample} {i : Nat} (hi : i < ss.length) :
    sampleAt (assign_step cs ss) i = assignSample cs (sampleAt ss i) := by
  unfold sampleAt assign_step
  rw [List.getD_eq_getElem?_getD, List.getD_eq_getElem?_getD, List.getElem?_map,
    List.getElem?_eq_getElem hi]
  rfl

lemma assignSample_min (cs : List Vector2) (s : Sample) (hcs : cs ≠ [])
    (hfc : ∀ c ∈ cs, finiteV c) (hfs : finiteS s) :
    ∃ j : Nat, j < cs.length ∧ (assignSample cs s).cluster = (j : Int) ∧
      (∀ m : Nat, m < cs.length → sqDistQ s (ptAt cs j) ≤ sqDistQ s (ptAt cs m)) ∧
      (∀ m : Nat, m < j → sqDistQ s (ptAt cs j) < sqDistQ s (ptAt cs m)) := by
  obtain ⟨c0, rest, rfl⟩ : ∃ c0 rest, cs = c0 :: rest := by
    cases cs with
    | nil => exact absurd rfl hcs
    | cons a l => exact ⟨a, l, rfl⟩
  have hc0 : finiteV c0 := hfc c0 (List.mem_cons_self _ _)
  have hrfin : ∀ c ∈ rest, finiteV c := fun c h => hfc c (List.mem_cons_of_mem _ h)
  have hd : sqDist s c0 = F.val (sqDistQ s c0) := sqDist_finite hfs hc0
  have hb : beats (F.val (sqDistQ s c0)) none = true := by simp [beats, isVal]
  have hstep : (assignSample (c0 :: rest) s).cluster =
      assignLoop s rest 1 (some (F.val (sqDistQ s c0))) 0 := by
    simp [assignSample, assignLoop, hd, hb]
  rcases assignLoop_min_spec s hfs rest hrfin 1 (sqDistQ s c0) 0 with
    ⟨heq, hall⟩ | ⟨j, hj, heq, hjb, hmin, hfirst⟩
  · refine ⟨0, by simp, by rw [hstep, heq]; simp, ?_, ?_⟩
    · intro m hm
      cases m with
      | zero => simp
      | succ m =>
        rw [ptAt_cons_zero, ptAt_cons_succ]
        exact hall _ (ptAt_mem (by simpa using hm))
    · intro m hm
      exact absurd hm (Nat.not_lt_zero m)
  · refine ⟨j + 1, by simp; omega, by rw [hstep, heq]; push_cast; ring, ?_, ?_⟩
    · intro m hm
      cases m with
      | zero =>
        rw [ptAt_cons_succ, ptAt_cons_zero]
        exact le_of_lt hjb
      | succ m =>
        rw [ptAt_cons_succ, ptAt_cons_succ]
        exact hmin m (by simpa using hm)
    · intro m hm
      cases m with
      | zero =>
        rw [ptAt_cons_succ, ptAt_cons_zero]
        exact hjb
      | succ m =>
        rw [ptAt_cons_succ, ptAt_cons_succ]
        exact hfirst m (by omega)

lemma assignSample_in_range (cs : List Vector2) (s : Sample) (hfs : finiteS s)
    (hex : ∃ c ∈ cs, finiteV c) :
    0 ≤ (assignSample cs s).cluster ∧ (assignSample cs s).cluster < (cs.length : Int) := by
  obtain ⟨c, hc, hcfin⟩ := hex
  have hval : isVal (sqDist s c) = true := by
    rw [sqDist_finite hfs hcfin]; rfl
  obtain ⟨j, hj, heq⟩ := assignLoop_none_assigns s cs 0 s.cluster ⟨c, hc, hval⟩
  unfold assignSample
  simp only [heq]
  omega

lemma converged_zip_iff :
    ∀ (prev : List Vector2) (cur : List Vector2), prev.length = cur.length →
      (∀ c ∈ prev, finiteV c) → (∀ c ∈ cur, finiteV c) →
      (((List.zip prev cur).all (fun pc => !(exceeds pc.1 pc.2))) = true ↔
        ∀ i : Nat, i < cur.length → dispQ (ptAt prev i) (ptAt cur i) ≤ EPSILON) := by
  intro prev
  induction prev with
  | nil =>
    intro cur hlen _ _
    cases cur with
    | nil => simp
    | cons c cur => simp at hlen
  | cons p prev ih =>
    intro cur hlen hfp hfc
    cases cur with
    | nil => simp at hlen
    | cons c cur =>
      have hpc : exceeds p c = decide (EPSILON < dispQ p c) :=
        exceeds_finite (hfp p (List.mem_cons_self _ _)) (hfc c (List.mem_cons_self _ _))
      have ihh := ih cur (by simpa using hlen)
        (fun c' h => hfp c' (List.mem_cons_of_mem _ h))
        (fun c' h => hfc c' (List.mem_cons_of_mem _ h))
      constructor
      · intro h
        have h' : (!(exceeds p c)) = true ∧
            ((List.zip prev cur).all (fun pc => !(exceeds pc.1 pc.2))) = true := by
          simpa [List.zip_cons_cons, List.all_cons] using h
        intro i hi
        cases i with
        | zero =>
          rw [ptAt_cons_zero, ptAt_cons_zero]
          have := h'.1
          rw [hpc] at this
          simpa [not_lt] using this
        | succ i =>
          rw [ptAt_cons_succ, ptAt_cons_succ]
          exact (ihh.mp h'.2) i (by simpa using hi)
      · intro h
        have h0 : dispQ p c ≤ EPSILON := by
          have := h 0 (by simp)
          simpa [ptAt_cons_zero] using this
        have hrest : ((List.zip prev cur).all (fun pc => !(exceeds pc.1 pc.2))) = true := by
          refine ihh.mpr ?_
          intro i hi
          have := h (i + 1) (by simpa using hi)
          simpa [ptAt_cons_succ] using this
        simp [List.zip_cons_cons, List.all_cons, hrest, hpc, not_lt, h0]

lemma generate_samples_length (prior : List Sample) (center : Vector2) (n : Nat)
    (draws : Nat → F × F) :
    (generate_samples prior center n draws).length = prior.length + n := by
  simp [generate_samples]

lemma generate_samples_take (prior : List Sample) (center : Vector2) (n : Nat)
    (draws : Nat → F × F) :
    (generate_samples prior center n draws).take prior.length = prior := by
  simp [generate_samples]

lemma generate_samples_drop_cluster (prior : List Sample) (center : Vector2) (n : Nat)
    (draws : Nat → F × F) :
    ∀ s ∈ (generate_samples prior center n draws).drop prior.length, s.cluster = -1 := by
  intro s hs
  have : (generate_samples prior center n draws).drop prior.length =
      (List.range n).map (fun i =>
        (⟨fadd center.x (draws i).1, fadd center.y (draws i).2, -1⟩ : Sample)) := by
    simp [generate_samples]
  rw [this] at hs
  obtain ⟨i, _, rfl⟩ := List.mem_map.mp hs
  rfl

/-! ### Claim theorems -/

/-- C1: for every centroid index `k` with at least one assigned sample
(under the in-bounds precondition on every cluster field and finite sample
coordinates), `update_step` sets centroid `k` to the arithmetic mean of
the positions of the samples whose `cluster` equals `k`: sum of x over
count, sum of y over count. -/
theorem C1_update_step_mean (cs : List Vector2) (ss : List Sample) (k : Nat)
    (hk : k < cs.length)
    (hin : ∀ s ∈ ss, 0 ≤ s.cluster ∧ s.cluster < (cs.length : Int))
    (hfin : ∀ s ∈ ss, finiteS s)
    (hne : (membersOf ss k).length ≠ 0) :
    (update_step cs ss)[k]? =
      some ⟨F.val (sumX (membersOf ss k) / ((membersOf ss k).length : ℚ)),
            F.val (sumY (membersOf ss k) / ((membersOf ss k).length : ℚ))⟩ := by
  have hmem := meanArray_get_members hk (fun s hs _ => hfin s hs)
  rw [update_step_get, hmem]
  have hQ : ((((membersOf ss k).length : Int)) : ℚ) ≠ 0 := by
    exact_mod_cast hne
  have hne' : membersOf ss k ≠ [] := by
    intro h
    exact hne (by simp [h])
  simp [fdiv, intToF, hQ, hne']

/-- C1 witness: the spec's own instance, the four samples
(0,0), (2,0), (0,2), (2,2) all assigned to centroid 0; `update_step`
moves centroid 0 to exactly (1,1). -/
theorem C1_witness :
    0 < ([⟨F.val 5, F.val 5⟩] : List Vector2).length ∧
    (update_step [⟨F.val 5, F.val 5⟩]
      [⟨F.val 0, F.val 0, 0⟩, ⟨F.val 2, F.val 0, 0⟩,
       ⟨F.val 0, F.val 2, 0⟩, ⟨F.val 2, F.val 2, 0⟩])[0]? =
      some ⟨F.val 1, F.val 1⟩ := by
  constructor
  · simp
  · have h := C1_update_step_mean [⟨F.val 5, F.val 5⟩]
      [⟨F.val 0, F.val 0, 0⟩, ⟨F.val 2, F.val 0, 0⟩,
       ⟨F.val 0, F.val 2, 0⟩, ⟨F.val 2, F.val 2, 0⟩] 0
      (by simp)
      (by simp)
      (by simp [finiteS, isVal])
      (by simp [membersOf])
    rw [h]
    norm_num [membersOf, sumX, sumY, toRat]

/-- C2: for every sample and nonempty collection of (finite-position)
centroids, `assign_step` records the index of the minimum-distance
centroid, and on exact distance ties the lowest index wins: the chosen
index `j` is no farther than any centroid and strictly closer than every
centroid of smaller index. -/
theorem C2_assign_step_nearest (cs : List Vector2) (ss : List Sample) (i : Nat)
    (hi : i < ss.length) (hcs : cs ≠ [])
    (hfc : ∀ c ∈ cs, finiteV c) (hfs : finiteS (sampleAt ss i)) :
    ∃ j : Nat, j < cs.length ∧
      (sampleAt (assign_step cs ss) i).cluster = (j : Int) ∧
      (∀ m : Nat, m < cs.length →
        sqDistQ (sampleAt ss i) (ptAt cs j) ≤ sqDistQ (sampleAt ss i) (ptAt cs m)) ∧
      (∀ m : Nat, m < j →
        sqDistQ (sampleAt ss i) (ptAt cs j) < sqDistQ (sampleAt ss i) (ptAt cs m)) := by
  rw [sampleAt_assign hi]
  exact assignSample_min cs (sampleAt ss i) hcs hfc hfs

/-- C2 witness: a sample at (1,0) equidistant from centroids 0 at (0,0)
and 1 at (2,0); the characterization applies, forcing the lower index. -/
theorem C2_witness :
    0 < ([⟨F.val 1, F.val 0, -1⟩] : List Sample).length ∧
    ∃ j : Nat, j < ([⟨F.val 0, F.val 0⟩, ⟨F.val 2, F.val 0⟩] : List Vector2).length ∧
      (sampleAt (assign_step [⟨F.val 0, F.val 0⟩, ⟨F.val 2, F.val 0⟩]
        [⟨F.val 1, F.val 0, -1⟩]) 0).cluster = (j : Int) ∧
      (∀ m : Nat, m < ([⟨F.val 0, F.val 0⟩, ⟨F.val 2, F.val 0⟩] : List Vector2).length →
        sqDistQ (sampleAt [⟨F.val 1, F.val 0, -1⟩] 0)
            (ptAt [⟨F.val 0, F.val 0⟩, ⟨F.val 2, F.val 0⟩] j) ≤
          sqDistQ (sampleAt [⟨F.val 1, F.val 0, -1⟩] 0)
            (ptAt [⟨F.val 0, F.val 0⟩, ⟨F.val 2, F.val 0⟩] m)) ∧
      (∀ m : Nat, m < j →
        sqDistQ (sampleAt [⟨F.val 1, F.val 0, -1⟩] 0)
            (ptAt [⟨F.val 0, F.val 0⟩, ⟨F.val 2, F.val 0⟩] j) <
          sqDistQ (sampleAt [⟨F.val 1, F.val 0, -1⟩] 0)
            (ptAt [⟨F.val 0, F.val 0⟩, ⟨F.val 2, F.val 0⟩] m)) := by
  constructor
  · simp
  · exact C2_assign_step_nearest [⟨F.val 0, F.val 0⟩, ⟨F.val 2, F.val 0⟩]
      [⟨F.val 1, F.val 0, -1⟩] 0 (by simp) (by simp)
      (by simp [finiteV, isVal]) (by simp [sampleAt, finiteS, isVal])

/-- C3: `converged` returns false whenever the two centroid counts
differ; and for finite positions it returns true exactly when the counts
agree and every per-index squared displacement is within `EPSILON`
(does not exceed it). -/
theorem C3_converged_spec :
    (∀ prev cur : List Vector2, prev.length ≠ cur.length → converged prev cur = false) ∧
    (∀ prev cur : List Vector2, (∀ c ∈ prev, finiteV c) → (∀ c ∈ cur, finiteV c) →
      (converged prev cur = true ↔ prev.length = cur.length ∧
        ∀ i : Nat, i < cur.length → dispQ (ptAt prev i) (ptAt cur i) ≤ EPSILON)) := by
  constructor
  · intro prev cur h
    simp [converged, h]
  · intro prev cur hfp hfc
    by_cases hlen : prev.length = cur.length
    · have hiff := converged_zip_iff prev cur hlen hfp hfc
      simpa [converged, hlen] using hiff
    · simp [converged, hlen]

/-- C3 witness: count mismatch forces false; and on a matching finite
pair the characterization applies. -/
theorem C3_witness :
    ([] : List Vector2).length ≠ ([⟨F.val 0, F.val 0⟩] : List Vector2).length ∧
    converged [] [⟨F.val 0, F.val 0⟩] = false :=
  ⟨by simp, C3_converged_spec.1 [] [⟨F.val 0, F.val 0⟩] (by simp)⟩

/-- C4 (failing-input evaluation): `run_kmeans` enters its loop testing
`converged` against the UNINITIALIZED snapshot `previous` before any
snapshot/assign/update cycle has run.  When that uninitialized buffer
happens to equal the current centroids, the pacing-triggered run exits
after ZERO cycles: the returned cycle count is 0 and the sample is still
unassigned (`cluster = -1`), so no full cycle was performed. -/
theorem C4_zero_cycle_eval :
    run_kmeans 1 [⟨F.val 0, F.val 0⟩]
        ⟨[⟨F.val 0, F.val 0⟩], [⟨F.val 0, F.val 0, -1⟩], F.val 1⟩
      = some ⟨[⟨F.val 0, F.val 0⟩], [⟨F.val 0, F.val 0, -1⟩], F.val 0⟩ ∧
    kmeansLoop 1 [⟨F.val 0, F.val 0⟩] [⟨F.val 0, F.val 0⟩] [⟨F.val 0, F.val 0, -1⟩]
      = some (0, [⟨F.val 0, F.val 0⟩], [⟨F.val 0, F.val 0⟩], [⟨F.val 0, F.val 0, -1⟩]) := by
  constructor
  · simp [run_kmeans, flt, kmeansLoop, converged, exceeds, fsub, fmul, fadd, fgt, EPSILON]
  · simp [kmeansLoop, converged, exceeds, fsub, fmul, fadd, fgt, EPSILON]

/-- C5 amended: a centroid with zero assigned samples gets the NaN
position `0.0f/0`; the convergence comparison on a NaN displacement is
false, which means `converged` does NOT take its early `return false` for
that centroid — so `converged` treats the NaN centroid as stable and can
return true (the loop terminates instead of spinning forever). -/
theorem C5_nan_behavior :
    (∀ (cs : List Vector2) (ss : List Sample) (k : Nat), k < cs.length →
      (∀ s ∈ ss, s.cluster ≠ (k : Int)) →
      (update_step cs ss)[k]? = some ⟨F.nan, F.nan⟩) ∧
    (∀ p c : Vector2, c.x = F.nan → exceeds p c = false) ∧
    converged [⟨F.val 0, F.val 0⟩] [⟨F.nan, F.nan⟩] = true := by
  refine ⟨?_, ?_, ?_⟩
  · intro cs ss k hk hnone
    rw [update_step_get, meanArray_get_empty hk hnone]
    simp [fdiv, intToF]
  · intro p c hc
    have hdx : fsub p.x c.x = F.nan := by
      rw [hc]; cases p.x <;> rfl
    simp [exceeds, hdx, fmul, fadd, fgt]
  · simp [converged, exceeds, fsub, fmul, fadd, fgt]

/-- C5 counterexample to the claim as stated: centroid 0 has zero
assigned samples, `update_step` makes it NaN, and `converged` RETURNS
TRUE on the NaN centroid (the claim asserts it never does). -/
theorem C5_counterexample :
    (update_step [⟨F.val 0, F.val 0⟩] [])[0]? = some ⟨F.nan, F.nan⟩ ∧
    converged [⟨F.val 0, F.val 0⟩] [⟨F.nan, F.nan⟩] = true := by
  constructor
  · norm_num [update_step, meanArray, meanInit, fdiv, intToF]
  · simp [converged, exceeds, fsub, fmul, fadd, fgt]

/-- C5 witness for the amended theorem. -/
theorem C5_witness :
    0 < ([⟨F.val 5, F.val 5⟩] : List Vector2).length ∧
    (update_step [⟨F.val 5, F.val 5⟩] [⟨F.val 0, F.val 0, 5⟩])[0]? =
      some ⟨F.nan, F.nan⟩ ∧
    exceeds ⟨F.val 3, F.val 3⟩ ⟨F.nan, F.val 0⟩ = false := by
  refine ⟨by simp, ?_, ?_⟩
  · exact C5_nan_behavior.1 [⟨F.val 5, F.val 5⟩] [⟨F.val 0, F.val 0, 5⟩] 0
      (by simp) (by simp)
  · exact C5_nan_behavior.2.1 ⟨F.val 3, F.val 3⟩ ⟨F.nan, F.val 0⟩ rfl

/-- C6: with the pacing accumulator strictly below 1.0 `run_kmeans`
returns immediately with centroids, samples and accumulator unchanged;
at or above 1.0 the convergence loop runs and, on completion, the
accumulator is exactly 0. -/
theorem C6_run_kmeans_pacing :
    (∀ (fuel : Nat) (junk cs : List Vector2) (ss : List Sample) (q : ℚ), q < 1 →
      run_kmeans fuel junk ⟨cs, ss, F.val q⟩ = some ⟨cs, ss, F.val q⟩) ∧
    (∀ (fuel : Nat) (junk cs : List Vector2) (ss : List Sample) (q : ℚ) (out : KState),
      1 ≤ q → run_kmeans fuel junk ⟨cs, ss, F.val q⟩ = some out →
      out.timeBetweenUpdates = F.val 0 ∧
      ∃ n : Nat, ∃ p : List Vector2,
        kmeansLoop fuel junk cs ss = some (n, p, out.centroids, out.samples)) := by
  constructor
  · intro fuel junk cs ss q hq
    simp [run_kmeans, flt, hq]
  · intro fuel junk cs ss q out hq hrun
    have hflt : flt (F.val q) (F.val 1) = false := by
      simp [flt, not_lt.mpr hq]
    simp only [run_kmeans, hflt, Bool.false_eq_true, if_false] at hrun
    cases hloop : kmeansLoop fuel junk cs ss with
    | none => rw [hloop] at hrun; cases hrun
    | some r =>
      obtain ⟨n, p, cs1, ss1⟩ := r
      rw [hloop] at hrun
      have hout : out = ⟨cs1, ss1, F.val 0⟩ := by
        cases hrun; rfl
      subst hout
      exact ⟨rfl, n, p, rfl⟩

/-- C6 witness: below threshold nothing changes; at the threshold a run
executes and resets the accumulator to zero. -/
theorem C6_witness :
    ((1 : ℚ) / 2 < 1 ∧
      run_kmeans 0 [] ⟨[], [], F.val (1 / 2)⟩ = some ⟨[], [], F.val (1 / 2)⟩) ∧
    ((1 : ℚ) ≤ 1 ∧
      ((⟨[], [], F.val 0⟩ : KState).timeBetweenUpdates = F.val 0 ∧
        ∃ n : Nat, ∃ p : List Vector2,
          kmeansLoop 1 [] [] [] =
            some (n, p, (⟨[], [], F.val 0⟩ : KState).centroids,
              (⟨[], [], F.val 0⟩ : KState).samples))) := by
  refine ⟨⟨by norm_num, C6_run_kmeans_pacing.1 0 [] [] [] (1 / 2) (by norm_num)⟩,
    ⟨le_refl 1, C6_run_kmeans_pacing.2 1 [] [] [] 1 ⟨[], [], F.val 0⟩ (le_refl 1) ?_⟩⟩
  simp [run_kmeans, flt, kmeansLoop, converged]

/-- C7: when the allocation of the mean accumulator fails, `update_step`
reports the error (second component) and returns with every centroid
exactly as it was. -/
theorem C7_update_alloc_failure (cs : List Vector2) (ss : List Sample) :
    update_step_checked false cs ss = (cs, true) := rfl

/-- C8 amended: freshly generated samples carry the sentinel `-1`; and
after any `assign_step` call with `k >= 1` centroids AT LEAST ONE OF
WHICH has a non-NaN position (in particular the first assign call, where
all centroids are finite), every sample's cluster is a valid index in
`[0, k)`.  (With every centroid NaN the strict `<` never fires and the
previous cluster value — possibly the sentinel — survives.) -/
theorem C8_cluster_range_amended :
    (∀ (prior : List Sample) (center : Vector2) (n : Nat) (draws : Nat → F × F),
      ∀ s ∈ (generate_samples prior center n draws).drop prior.length, s.cluster = -1) ∧
    (∀ (cs : List Vector2) (ss : List Sample) (i : Nat), i < ss.length →
      finiteS (sampleAt ss i) → (∃ c ∈ cs, finiteV c) →
      0 ≤ (sampleAt (assign_step cs ss) i).cluster ∧
        (sampleAt (assign_step cs ss) i).cluster < (cs.length : Int)) := by
  constructor
  · exact generate_samples_drop_cluster
  · intro cs ss i hi hfs hex
    rw [sampleAt_assign hi]
    exact assignSample_in_range cs (sampleAt ss i) hfs hex

/-- C8 counterexample to the claim as stated: one centroid (`k = 1 >= 1`)
whose position is NaN; after `assign_step` the sample's cluster is still
the sentinel `-1`, not a valid index in `[0, 1)`. -/
theorem C8_counterexample :
    ([⟨F.nan, F.nan⟩] : List Vector2).length = 1 ∧
    (sampleAt (assign_step [⟨F.nan, F.nan⟩] [⟨F.val 0, F.val 0, -1⟩]) 0).cluster = -1 := by
  constructor
  · rfl
  · simp [sampleAt, assign_step, assignSample, assignLoop, beats, sqDist,
      fsub, fmul, fadd, isVal]

/-- C8 witness for the amended theorem. -/
theorem C8_witness :
    (∀ s ∈ (generate_samples [] ⟨F.val 0, F.val 0⟩ 1
        (fun _ => (F.val 0, F.val 0))).drop ([] : List Sample).length, s.cluster = -1) ∧
    (0 ≤ (sampleAt (assign_step [⟨F.val 0, F.val 0⟩] [⟨F.val 2, F.val 3, -1⟩]) 0).cluster ∧
      (sampleAt (assign_step [⟨F.val 0, F.val 0⟩] [⟨F.val 2, F.val 3, -1⟩]) 0).cluster <
        (([⟨F.val 0, F.val 0⟩] : List Vector2).length : Int)) := by
  constructor
  · exact C8_cluster_range_amended.1 [] ⟨F.val 0, F.val 0⟩ 1 (fun _ => (F.val 0, F.val 0))
  · exact C8_cluster_range_amended.2 [⟨F.val 0, F.val 0⟩] [⟨F.val 2, F.val 3, -1⟩] 0
      (by simp) (by simp [sampleAt, finiteS, isVal])
      ⟨⟨F.val 0, F.val 0⟩, by simp, by simp [finiteV, isVal]⟩

/-- C9: `generate` appends exactly `count` samples at the end, each new
sample carries the unassigned sentinel `-1`, and all samples present
before the call are unchanged, in place. -/
theorem C9_generate_samples_spec (prior : List Sample) (center : Vector2) (n : Nat)
    (draws : Nat → F × F) :
    (generate_samples prior center n draws).length = prior.length + n ∧
    (generate_samples prior center n draws).take prior.length = prior ∧
    ∀ s ∈ (generate_samples prior center n draws).drop prior.length, s.cluster = -1 :=
  ⟨generate_samples_length prior center n draws,
   generate_samples_take prior center n draws,
   generate_samples_drop_cluster prior center n draws⟩

/-- C9 witness at a concrete generation call. -/
theorem C9_witness :
    (generate_samples [] ⟨F.val 0, F.val 0⟩ 2 (fun _ => (F.val 1, F.val 1))).length =
      ([] : List Sample).length + 2 ∧
    (generate_samples [] ⟨F.val 0, F.val 0⟩ 2 (fun _ => (F.val 1, F.val 1))).take
      ([] : List Sample).length = [] ∧
    (sampleAt (generate_samples [] ⟨F.val 0, F.val 0⟩ 2 (fun _ => (F.val 1, F.val 1))) 0).cluster
      = -1 := by
  have h := C9_generate_samples_spec [] ⟨F.val 0, F.val 0⟩ 2 (fun _ => (F.val 1, F.val 1))
  refine ⟨h.1, h.2.1, ?_⟩
  refine h.2.2 _ ?_
  simp [generate_samples, sampleAt]

/-- C10: the accumulation loop of `update_step` indexes `mean_array` by
each sample's raw cluster field: it stays in bounds exactly when every
sample's cluster lies in `[0, number of centroids)`, and any sample still
carrying the sentinel `-1` (e.g. `update` before any `assign`) makes the
access out of bounds. -/
theorem C10_update_access_bounds :
    (∀ (cs : List Vector2) (ss : List Sample),
      updateOOB cs ss = false ↔
        ∀ s ∈ ss, 0 ≤ s.cluster ∧ s.cluster < (cs.length : Int)) ∧
    (∀ (cs : List Vector2) (ss : List Sample) (s : Sample),
      s ∈ ss → s.cluster = -1 → updateOOB cs ss = true) := by
  constructor
  · exact updateOOB_eq_false_iff
  · intro cs ss s hs hcl
    by_contra h
    have hfalse : updateOOB cs ss = false := by
      cases hb : updateOOB cs ss with
      | false => rfl
      | true => exact absurd hb h
    have hbound := (updateOOB_eq_false_iff cs ss).mp hfalse s hs
    rw [hcl] at hbound
    omega

/-- C10 witness: a valid cluster keeps the access in bounds; the sentinel
forces an out-of-bounds access. -/
theorem C10_witness :
    (updateOOB [⟨F.val 0, F.val 0⟩] [⟨F.val 1, F.val 1, 0⟩] = false ↔
      ∀ s ∈ ([⟨F.val 1, F.val 1, 0⟩] : List Sample),
        0 ≤ s.cluster ∧ s.cluster < (([⟨F.val 0, F.val 0⟩] : List Vector2).length : Int)) ∧
    updateOOB [] [⟨F.val 1, F.val 1, -1⟩] = true := by
  constructor
  · exact C10_update_access_bounds.1 [⟨F.val 0, F.val 0⟩] [⟨F.val 1, F.val 1, 0⟩]
  · exact C10_update_access_bounds.2 [] [⟨F.val 1, F.val 1, -1⟩] ⟨F.val 1, F.val 1, -1⟩
      (by simp) rfl

/-- Whenever the convergence loop does exit, the final test compared the
current centroids against the most recent snapshot and found them
converged (context for the `run_kmeans` loop structure). -/
lemma kmeansLoop_exit_converged :
    ∀ (fuel : Nat) (prev cs : List Vector2) (ss : List Sample) (n : Nat)
      (p c : List Vector2) (s : List Sample),
      kmeansLoop fuel prev cs ss = some (n, p, c, s) → converged p c = true := by
  intro fuel
  induction fuel with
  | zero =>
    intro prev cs ss n p c s h
    cases h
  | succ fuel ih =>
    intro prev cs ss n p c s h
    by_cases hc : converged prev cs = true
    · simp only [kmeansLoop, hc, if_true, Option.some.injEq, Prod.mk.injEq] at h
      obtain ⟨-, h2, h3, -⟩ := h
      rw [← h2, ← h3]
      exact hc
    · simp only [kmeansLoop, hc, if_false] at h
      cases hrec : kmeansLoop fuel cs (update_step cs (assign_step cs ss))
          (assign_step cs ss) with
      | none => rw [hrec] at h; cases h
      | some r =>
        obtain ⟨n1, p1, c1, s1⟩ := r
        rw [hrec] at h
        cases h
        exact ih cs _ _ _ _ _ _ hrec
